import Mathlib

/-!
Verification of the peer-session layer (`libp2p/Session.cpp`) of a
peer-to-peer networking stack.  The development shallowly embeds the
frame codec, the ingress dispatch loop, the Hello / Disconnect / Peers /
GetPeers handlers, the egress write queue and the rating machinery, and
proves (or refutes) the specified properties about them.

Bytes are modelled as `Nat` (with `< 256` hypotheses where byte-ness
matters), byte buffers as `List Nat`.  External collaborators (the RLP
structural decoder, the host's node table callbacks, the private-address
predicate, the random source) are taken as parameters, mirroring the
interfaces the session code calls into.
-/

namespace P2PSession

/- ### Frame codec (`Session::checkPacket` and the header fields) -/

/-- The 4-byte synchronisation-token test: bytes 0..3 are `22 40 08 91`.
(`_msg[0] == 0x22 && _msg[1] == 0x40 && _msg[2] == 0x08 && _msg[3] == 0x91`). -/
def hasToken (msg : List Nat) : Bool :=
  msg.getD 0 0 == 0x22 && msg.getD 1 0 == 0x40 && msg.getD 2 0 == 0x08 && msg.getD 3 0 == 0x91

/-- The length field: bytes 4..8 decoded big-endian
(`((_msg[4] * 256 + _msg[5]) * 256 + _msg[6]) * 256 + _msg[7]`). -/
def beLen (msg : List Nat) : Nat :=
  ((msg.getD 4 0 * 256 + msg.getD 5 0) * 256 + msg.getD 6 0) * 256 + msg.getD 7 0

/-- `Session::checkPacket`.  `actualSize` is the externally supplied RLP
structural-size function (`RLP(_msg.cropped(8)).actualSize()`); the codec
itself does not re-specify the payload encoding. -/
def checkPacket (actualSize : List Nat → Nat) (msg : List Nat) : Bool :=
  if msg.length < 8 then false
  else if !(hasToken msg) then false
  else if msg.length ≠ beLen msg + 8 then false
  else if actualSize (msg.drop 8) ≠ beLen msg then false
  else true

/- ### Ingress dispatch loop (`Session::doRead`, inner while-loop) -/

/-- Outcome of one dispatch pass over the accumulation buffer. -/
inductive PassResult where
  /-- the while-loop exited normally (condition false or `break`);
  `doRead` is re-issued with this buffer content. -/
  | ok (buf : List Nat)
  /-- bad token or failed `checkPacket`: `disconnect(BadProtocol)` and return. -/
  | disconnected (buf : List Nat)
  /-- `interpret` returned false: `dropped()` and return. -/
  | dropped (buf : List Nat)
deriving DecidableEq, Repr

/-- Fuel-indexed body of the `while (m_incoming.size() > 8)` loop.  Every
iteration consumes at least 8 buffered bytes, so `buf.length` is ample fuel. -/
def dispatchGo (actualSize : List Nat → Nat) (interp : List Nat → Bool) :
    Nat → List Nat → PassResult
  | 0, buf => .ok buf
  | fuel + 1, buf =>
    if buf.length ≤ 8 then .ok buf
    else if !(hasToken buf) then .disconnected buf
    else
      let tlen := beLen buf + 8
      if buf.length < tlen then .ok buf
      else if !(checkPacket actualSize (buf.take tlen)) then .disconnected buf
      else if !(interp ((buf.take tlen).drop 8)) then .dropped buf
      else dispatchGo actualSize interp fuel (buf.drop tlen)

/-- One dispatch pass of `doRead` over the accumulation buffer. -/
def dispatchPass (actualSize : List Nat → Nat) (interp : List Nat → Bool)
    (buf : List Nat) : PassResult :=
  dispatchGo actualSize interp buf.length buf

/-- The read loop over a sequence of received chunks: each read appends its
chunk to the accumulator and runs one dispatch pass; an error outcome stops
the loop. -/
def feedChunks (actualSize : List Nat → Nat) (interp : List Nat → Bool) :
    List Nat → List (List Nat) → PassResult
  | buf, [] => .ok buf
  | buf, c :: cs =>
    match dispatchPass actualSize interp (buf ++ c) with
    | .ok buf' => feedChunks actualSize interp buf' cs
    | r => r

/-- The ingress invariant exactly as the specification states it: after the
dispatch pass, the buffer is empty, or holds fewer than 8 bytes, or begins
with the synchronisation token followed by a big-endian length `L` with
fewer than `8 + L` bytes buffered. -/
def specIngressInv (buf : List Nat) : Prop :=
  buf = [] ∨ buf.length < 8 ∨ (hasToken buf = true ∧ buf.length < beLen buf + 8)

/-- The invariant the code actually maintains: the loop runs only while
*strictly more* than 8 bytes are buffered, so a buffer of at most 8 bytes
(including a complete zero-payload frame of exactly 8 bytes) is also left
untouched. -/
def codeIngressInv (buf : List Nat) : Prop :=
  buf = [] ∨ buf.length ≤ 8 ∨ (hasToken buf = true ∧ buf.length < beLen buf + 8)

instance (buf : List Nat) : Decidable (specIngressInv buf) := by
  unfold specIngressInv; infer_instance

instance (buf : List Nat) : Decidable (codeIngressInv buf) := by
  unfold codeIngressInv; infer_instance

/- ### Node records and origins -/

/-- Modelled from the spec: the origin tag of a node record (declared in
`Host.h`, which is outside the session translation unit), "ordered label
describing how much we trust our knowledge of a node's identity:
Unknown < SelfThird < PerfectThird < Self < Perfect". -/
inductive Origin where
  | Unknown
  | SelfThird
  | PerfectThird
  | Self
  | Perfect
deriving DecidableEq, Repr

/-- Numeric rank realising the spec's order on origin tags. -/
def Origin.rank : Origin → Nat
  | .Unknown => 0
  | .SelfThird => 1
  | .PerfectThird => 2
  | .Self => 3
  | .Perfect => 4

/-- The comparison `idOrigin <= Origin::SelfThird` etc. on origin tags. -/
def Origin.le (a b : Origin) : Bool :=
  a.rank ≤ b.rank

/-- A TCP endpoint: address bytes (4 for IPv4, 16 for IPv6) and port. -/
structure EndPoint where
  addrBytes : List Nat
  port : Nat
deriving DecidableEq, Repr

/-- Modelled from the spec: the node record held by the Host (`Node` in
`Host.h`, outside the session translation unit): identity, advertised
address, origin tag, accumulative rating (≥ 0) and long-term score,
last-disconnect reason, and the node's index in the host table (used by the
known-nodes bitset).  A null identity is modelled as `id = 0`. -/
structure Node where
  id : Nat
  address : EndPoint
  idOrigin : Origin
  rating : Nat
  score : Nat
  lastDisconnect : Int
  index : Nat
deriving DecidableEq, Repr

/-- `Session::addRating`: adds `r` to the node record's rating and score when
a record is attached, and does nothing otherwise. -/
def addRating (mnode : Option Node) (r : Nat) : Option Node :=
  match mnode with
  | none => none
  | some n => some { n with rating := n.rating + r, score := n.score + r }

/- ### Disconnect reasons and packet types -/

/-- The disconnect reasons the session issues (`Common.h`). -/
inductive DisconnectReason where
  | DisconnectRequested
  | BadProtocol
  | UselessPeer
  | TooManyPeers
  | DuplicatePeer
  | IncompatibleProtocol
  | NullIdentity
  | ClientQuit
  | UnexpectedIdentity
deriving DecidableEq, Repr

/-- The built-in packet types (`Common.h`). -/
inductive PacketType where
  | HelloPacket
  | DisconnectPacket
  | PingPacket
  | PongPacket
  | GetPeersPacket
  | PeersPacket
deriving DecidableEq, Repr

/- ### The Hello handler (`Session::interpret`, `case HelloPacket`) -/

/-- The fields decoded from a Hello payload (the capability list and client
version do not affect the properties under study and are elided). -/
structure HelloMsg where
  protocolVersion : Nat
  listenPort : Nat
  id : Nat
deriving DecidableEq, Repr

/-- The host callbacks the Hello handler uses.  `noteNode` returns the node
record the host hands back (`m_server->noteNode(...)`). -/
structure HostEnv where
  havePeer : Nat → Bool
  protocolVersion : Nat
  noteNode : Nat → EndPoint → Origin → Bool → Nat → Node

/-- Observable outcome of the Hello handler: the disconnect it issued (if
any), the `noteNode` call it made (id, endpoint, origin, replaces-hint), the
session's node record afterwards, the index added to the known-nodes bitset,
the value `interpret` returns, and whether the session was registered. -/
structure HelloResult where
  disconnect : Option DisconnectReason
  noteCall : Option (Nat × EndPoint × Origin × Nat)
  node : Option Node
  knownAdded : Option Nat
  ok : Bool
  registered : Bool
deriving DecidableEq, Repr

/-- Tail of the Hello handler, from the null-identity check onward.  The
`none` result marks the undefined dereference `m_node->id` performed while
computing the replaces-hint argument of `noteNode` when `m_node` is null. -/
def helloRest (env : HostEnv) (remoteAddr : List Nat) (mnode : Option Node)
    (msg : HelloMsg) : Option HelloResult :=
  if msg.id = 0 then
    some ⟨some .NullIdentity, none, mnode, none, false, false⟩
  else
    match mnode with
    | none => none
    | some n =>
      let replaces := if n.id = msg.id then 0 else n.id
      let ep : EndPoint := ⟨remoteAddr, msg.listenPort⟩
      let newNode := env.noteNode msg.id ep .Self false replaces
      if msg.protocolVersion ≠ env.protocolVersion then
        some ⟨some .IncompatibleProtocol, some (msg.id, ep, .Self, replaces),
              some newNode, some newNode.index, false, false⟩
      else
        some ⟨none, some (msg.id, ep, .Self, replaces),
              some newNode, some newNode.index, true, true⟩

/-- `Session::interpret`, `case HelloPacket`: duplicate-peer check,
identity-change policy, null-identity check, `noteNode` upsert, protocol
version check, registration.  `remoteAddr` is the socket's observed remote
address; `force` is the session's force flag. -/
def helloInterpret (env : HostEnv) (remoteAddr : List Nat) (mnode : Option Node)
    (force : Bool) (msg : HelloMsg) : Option HelloResult :=
  let mnode1 := mnode.map (fun n => { n with lastDisconnect := -1 })
  if env.havePeer msg.id then
    some ⟨some .DuplicatePeer, none, mnode1, none, false, false⟩
  else
    match mnode1 with
    | some n =>
      if n.id ≠ msg.id ∧ ¬(force = true ∨ n.idOrigin.le .SelfThird = true) then
        some ⟨some .UnexpectedIdentity, none, some n, none, false, false⟩
      else helloRest env remoteAddr (some n) msg
    | none => helloRest env remoteAddr none msg

/- ### Peers ingestion (`Session::interpret`, `case PeersPacket`) -/

/-- One advertised entry `{address bytes, port, id}` of a Peers message. -/
structure PeerEntry where
  addrBytes : List Nat
  port : Nat
  id : Nat
deriving DecidableEq, Repr

/-- The host state and policy the Peers handler reads.  `isPriv` is the
external `isPrivateAddress` predicate; `nodes` is the host's node table
(`m_server->m_nodes`, keyed by identity); `addresses` are the host's own
addresses; `hostId` is `m_server->id()`. -/
structure PeersEnv where
  isPriv : List Nat → Bool
  localNetworking : Bool
  hostId : Nat
  nodes : List Node
  addresses : List (List Nat)
  listenPort : Nat

/-- `m_server->m_nodes.count(id)` as a Boolean. -/
def nodesCount (ns : List Node) (i : Nat) : Bool :=
  ns.any (fun n => n.id == i)

/-- `m_server->m_nodes.at(id)`. -/
def nodesAt (ns : List Node) (i : Nat) : Option Node :=
  ns.find? (fun n => n.id == i)

/-- Observable outcome of processing one advertised entry. -/
inductive EntryOutcome where
  /-- address size neither 4 nor 16: `disconnect(BadProtocol)`, handler fails. -/
  | badProtocol
  /-- `goto CONTINUE`: entry rejected; `addrUpdate` records the address
  rewrite `m_nodes[id]->address = ep` performed by filter 6, if any. -/
  | skip (addrUpdate : Option (Nat × EndPoint))
  /-- entry survived all filters: `addRating(1000)` on the informant and one
  `noteNode(id, ep, origin, true)` call. -/
  | accept (origin : Origin) (ratingDelta : Nat)
  /-- the surviving branch dereferences `m_node->idOrigin` with a null
  `m_node`. -/
  | crash
deriving DecidableEq, Repr

/-- Processing of one advertised entry, filters applied in source order.
`mnode` is the informant session's node record (`m_node`). -/
def processEntry (env : PeersEnv) (mnode : Option Node) (e : PeerEntry) :
    EntryOutcome :=
  if ¬(e.addrBytes.length = 16 ∨ e.addrBytes.length = 4) then .badProtocol
  else if env.isPriv e.addrBytes = true ∧ env.localNetworking = false then .skip none
  else if e.id = 0 then .skip none
  else if env.hostId = e.id then .skip none
  else if e.id = (match mnode with | some n => n.id | none => 0) then .skip none
  else if nodesCount env.nodes e.id = true then
    .skip (match nodesAt env.nodes e.id with
           | some ex =>
             if env.isPriv ex.address.addrBytes = true
             then some (e.id, ⟨e.addrBytes, e.port⟩) else none
           | none => none)
  else if e.port = 0 then .skip none
  else if env.addresses.any
      (fun a => e.addrBytes == a && e.port == env.listenPort) = true then .skip none
  else if env.nodes.any
      (fun n => n.address == EndPoint.mk e.addrBytes e.port) = true then .skip none
  else
    match mnode with
    | none => .crash
    | some inf =>
      .accept (if inf.idOrigin = .Perfect then .PerfectThird else .SelfThird) 1000

/- ### GetPeers reply (`Session::interpret`, `case GetPeersPacket`) -/

/-- A candidate peer returned by `m_server->potentialPeers(m_knownNodes)`. -/
structure PeerCand where
  id : Nat
  addrBytes : List Nat
  port : Nat
  index : Nat
deriving DecidableEq, Repr

/-- Fuel-indexed erase loop of `randomSelection`: while more than `n`
elements remain, erase the one at position `rnd k % size`.  `rnd` is the
external random source (`rand()`), `k` the number of draws made so far. -/
def selGo {α : Type} (rnd : Nat → Nat) (n : Nat) :
    Nat → Nat → List α → List α
  | 0, _, ret => ret
  | fuel + 1, k, ret =>
    if ret.length ≤ n then ret
    else selGo rnd n fuel (k + 1) (ret.eraseIdx (rnd k % ret.length))

/-- `randomSelection(t, n)`: return `t` whole when it has at most `n`
elements, otherwise erase random elements until exactly `n` remain. -/
def randomSelection {α : Type} (rnd : Nat → Nat) (t : List α) (n : Nat) : List α :=
  if t.length ≤ n then t else selGo rnd n t.length 0 t

/-- One Peers-reply entry as encoded on the wire: address bytes, port, id. -/
def encodePeer (c : PeerCand) : List Nat × Nat × Nat :=
  (c.addrBytes, c.port, c.id)

/-- `case GetPeersPacket`: query candidates, reply with a random selection of
at most 10, and mark each sent peer's index in the known-nodes bitset.
Returns the reply (or `none` when no reply is sent) and the updated bitset. -/
def getPeersHandle (rnd : Nat → Nat) (peers : List PeerCand) (known : Finset Nat) :
    Option (List (List Nat × Nat × Nat)) × Finset Nat :=
  if peers = [] then (none, known)
  else
    let rs := randomSelection rnd peers 10
    (some (rs.map encodePeer), rs.foldl (fun k c => insert c.index k) known)

/- ### Egress queue (`Session::writeImpl`, `Session::write`) -/

/-- State of the write machinery: the FIFO of pending buffers, the buffer
handed to the in-flight asynchronous write (if one is outstanding), and
whether the socket is open.  Buffers are identified by their bytes. -/
structure EgressState where
  queue : List (List Nat)
  inFlight : Option (List Nat)
  isOpen : Bool
deriving DecidableEq, Repr

/-- `Session::writeImpl`: drop the buffer when the socket is closed;
otherwise push it and, when the queue transitioned from empty to non-empty,
start a write on the head (`write()` passes `m_writeQueue[0]`). -/
def writeImpl (s : EgressState) (b : List Nat) : EgressState :=
  if !s.isOpen then s
  else if s.queue = [] then ⟨[b], some b, true⟩
  else { s with queue := s.queue ++ [b] }

/-- Successful write-completion callback: pop the head; if buffers remain,
`write()` starts the next one, else the chain stops. -/
def writeOk (s : EgressState) : EgressState :=
  match s.queue with
  | [] => s
  | _ :: rest => { s with queue := rest, inFlight := rest.head? }

/-- Failed write-completion callback: `dropped()` closes the socket; the
head is not popped. -/
def writeErr (s : EgressState) : EgressState :=
  { s with inFlight := none, isOpen := false }

/-- Reachable states of the write machinery from a fresh session (open
socket, empty queue, no write in flight).  Completion events fire only while
a write is outstanding. -/
inductive EgressReachable : EgressState → Prop
  | init : EgressReachable ⟨[], none, true⟩
  | enq {s : EgressState} (b : List Nat) :
      EgressReachable s → EgressReachable (writeImpl s b)
  | ok {s : EgressState} {b : List Nat} :
      EgressReachable s → s.inFlight = some b → EgressReachable (writeOk s)
  | err {s : EgressState} {b : List Nat} :
      EgressReachable s → s.inFlight = some b → EgressReachable (writeErr s)

/-- The egress invariant: with the socket closed no write is outstanding;
with it open, the in-flight buffer (if any) is the head of the queue, and a
write is outstanding exactly when the queue is non-empty. -/
def EgressInv (s : EgressState) : Prop :=
  (s.isOpen = false → s.inFlight = none) ∧
  (s.isOpen = true →
    ((∀ b, s.inFlight = some b → s.queue.head? = some b) ∧
     (s.inFlight = none ↔ s.queue = [])))

/- ### Disconnect sequencing (`Session::disconnect`) -/

/-- The session state `disconnect` touches: socket, disconnect timestamp
(`none` is the sentinel `time_point::max()`, "never"), node record. -/
structure DisState where
  socketOpen : Bool
  disconnectAt : Option Nat
  node : Option Node
deriving DecidableEq, Repr

/-- `Session::disconnect(_reason)` at instant `now`: record `lastDisconnect`
on the node record; then, with an open socket, either seal-and-send one
Disconnect packet carrying the reason and stamp the time (first call), or
`dropped()` (timestamp already set).  Returns the new state and the packet
sent, if any. -/
def disconnectCall (s : DisState) (reason : Int) (now : Nat) :
    DisState × Option (PacketType × List Int) :=
  let node' := s.node.map (fun n => { n with lastDisconnect := reason })
  if s.socketOpen then
    match s.disconnectAt with
    | none =>
      ({ s with node := node', disconnectAt := some now },
       some (.DisconnectPacket, [reason]))
    | some _ =>
      ({ s with node := node', socketOpen := false }, none)
  else
    ({ s with node := node' }, none)

/- ### Helper lemmas -/

theorem getD_set_of_ne (l : List Nat) {i j : Nat} (h : i ≠ j) (a : Nat) :
    (l.set i a).getD j 0 = l.getD j 0 := by
  simp [List.getD_eq_getElem?_getD, List.getElem?_set_ne h]

theorem getD_set_of_lt (l : List Nat) {i : Nat} (h : i < l.length) (a : Nat) :
    (l.set i a).getD i 0 = a := by
  simp [List.getD_eq_getElem?_getD, List.getElem?_set_self h]

theorem getD_lt_of_forall_lt (l : List Nat) {i : Nat} (h : i < l.length)
    (hb : ∀ x ∈ l, x < 256) : l.getD i 0 < 256 := by
  rw [List.getD_eq_getElem?_getD, List.getElem?_eq_getElem h]
  exact hb _ (List.getElem_mem h)

theorem hasToken_set (msg : List Nat) {i : Nat} (h4 : 4 ≤ i) (b : Nat) :
    hasToken (msg.set i b) = hasToken msg := by
  unfold hasToken
  rw [getD_set_of_ne msg (by omega) b, getD_set_of_ne msg (by omega) b,
      getD_set_of_ne msg (by omega) b, getD_set_of_ne msg (by omega) b]

/-- `checkPacket` unfolded into its four conditions. -/
theorem checkPacket_eq_true_iff (aS : List Nat → Nat) (msg : List Nat) :
    checkPacket aS msg = true ↔
      (8 ≤ msg.length ∧ hasToken msg = true ∧ msg.length = beLen msg + 8 ∧
       aS (msg.drop 8) = beLen msg) := by
  unfold checkPacket
  repeat' split
  all_goals simp_all

/-- A dispatch pass that exits normally leaves a buffer satisfying the code's
ingress invariant (fuel-indexed form). -/
theorem dispatchGo_ok_inv (aS : List Nat → Nat) (interp : List Nat → Bool) :
    ∀ (fuel : Nat) (buf out : List Nat), buf.length ≤ fuel →
      dispatchGo aS interp fuel buf = .ok out →
      out.length ≤ 8 ∨ (hasToken out = true ∧ out.length < beLen out + 8) := by
  intro fuel
  induction fuel with
  | zero =>
    intro buf out hle h
    simp only [dispatchGo] at h
    cases h
    left; omega
  | succ fuel ih =>
    intro buf out hle h
    simp only [dispatchGo] at h
    by_cases h8 : buf.length ≤ 8
    · rw [if_pos h8] at h; cases h; left; exact h8
    · rw [if_neg h8] at h
      by_cases ht : hasToken buf
      · rw [ht] at h; simp only [Bool.not_true, Bool.false_eq_true, if_false] at h
        by_cases hlen : buf.length < beLen buf + 8
        · rw [if_pos hlen] at h; cases h; right; exact ⟨ht, hlen⟩
        · rw [if_neg hlen] at h
          by_cases hcp : checkPacket aS (buf.take (beLen buf + 8))
          · rw [hcp] at h
            simp only [Bool.not_true, Bool.false_eq_true, if_false] at h
            by_cases hin : interp ((buf.take (beLen buf + 8)).drop 8)
            · rw [hin] at h
              simp only [Bool.not_true, Bool.false_eq_true, if_false] at h
              exact ih (buf.drop (beLen buf + 8)) out
                (by simp [List.length_drop]; omega) h
            · simp only [Bool.not_eq_true] at hin
              rw [hin] at h; simp at h
          · simp only [Bool.not_eq_true] at hcp
            rw [hcp] at h; simp at h
      · simp only [Bool.not_eq_true] at ht
        rw [ht] at h; simp at h

/-- A dispatch pass that exits normally leaves a buffer satisfying the code's
ingress invariant. -/
theorem dispatchPass_ok_inv (aS : List Nat → Nat) (interp : List Nat → Bool)
    (buf out : List Nat) (h : dispatchPass aS interp buf = .ok out) :
    codeIngressInv out := by
  have := dispatchGo_ok_inv aS interp buf.length buf out le_rfl h
  unfold codeIngressInv
  tauto

/-- The read loop preserves the code's ingress invariant across any sequence
of received chunks. -/
theorem feedChunks_ok_inv (aS : List Nat → Nat) (interp : List Nat → Bool) :
    ∀ (chunks : List (List Nat)) (buf out : List Nat), codeIngressInv buf →
      feedChunks aS interp buf chunks = .ok out → codeIngressInv out := by
  intro chunks
  induction chunks with
  | nil =>
    intro buf out hb h
    simp only [feedChunks] at h
    cases h
    exact hb
  | cons c cs ih =>
    intro buf out hb h
    simp only [feedChunks] at h
    split at h
    · exact ih _ out (dispatchPass_ok_inv _ _ _ _ (by assumption)) h
    · next hne => exact absurd h (fun hh => hne out hh)

/-- **C1** (amended).  Ingress buffer invariant: for every sequence of
received chunks, when the dispatch pass over the accumulation buffer exits
normally, the buffer is empty, or holds *at most* 8 bytes (the
`while (size > 8)` guard also leaves a complete zero-payload frame of
exactly 8 bytes undispatched), or begins with the synchronisation token
followed by a big-endian length `L` with fewer than `8 + L` buffered bytes. -/
theorem C1_ingress_invariant (aS : List Nat → Nat) (interp : List Nat → Bool)
    (chunks : List (List Nat)) (out : List Nat)
    (h : feedChunks aS interp [] chunks = .ok out) :
    codeIngressInv out :=
  feedChunks_ok_inv aS interp chunks [] out (Or.inl rfl) h

theorem C1_ingress_invariant_witness :
    codeIngressInv [0x22, 0x40, 0x08, 0x91] :=
  C1_ingress_invariant (fun _ => 0) (fun _ => true)
    [[0x22, 0x40, 0x08, 0x91]] [0x22, 0x40, 0x08, 0x91] (by decide)

/-- **C1** counterexample.  A single chunk holding the complete zero-payload
frame `22 40 08 91 00 00 00 00` (a valid packet by `checkPacket`) survives
the dispatch pass untouched: the buffer then holds a complete undispatched
frame, violating the claimed invariant. -/
theorem C1_counterexample :
    feedChunks (fun _ => 0) (fun _ => true) []
        [[0x22, 0x40, 0x08, 0x91, 0, 0, 0, 0]]
      = .ok [0x22, 0x40, 0x08, 0x91, 0, 0, 0, 0]
    ∧ checkPacket (fun _ => 0) [0x22, 0x40, 0x08, 0x91, 0, 0, 0, 0] = true
    ∧ ¬ specIngressInv [0x22, 0x40, 0x08, 0x91, 0, 0, 0, 0] := by
  decide

/-- The length field is load-bearing: overwriting any one byte of a valid
frame's length field (positions 4..7) with a different byte value breaks
validation, because the decoded big-endian length no longer matches
`size - 8`. -/
theorem checkPacket_set_len_field (aS : List Nat → Nat) (msg : List Nat)
    (i b' : Nat) (hv : checkPacket aS msg = true) (hi4 : 4 ≤ i) (hi8 : i < 8)
    (hb : ∀ x ∈ msg, x < 256) (hb' : b' < 256) (hne : msg.getD i 0 ≠ b') :
    checkPacket aS (msg.set i b') = false := by
  obtain ⟨hlen, htok, hsz, haS⟩ := (checkPacket_eq_true_iff aS msg).1 hv
  have hilt : i < msg.length := by omega
  have hbe : beLen (msg.set i b') ≠ beLen msg := by
    have h4 : msg.getD 4 0 < 256 := getD_lt_of_forall_lt msg (by omega) hb
    have h5 : msg.getD 5 0 < 256 := getD_lt_of_forall_lt msg (by omega) hb
    have h6 : msg.getD 6 0 < 256 := getD_lt_of_forall_lt msg (by omega) hb
    have h7 : msg.getD 7 0 < 256 := getD_lt_of_forall_lt msg (by omega) hb
    interval_cases i
    · unfold beLen
      rw [getD_set_of_lt msg hilt b', getD_set_of_ne msg (by omega) b',
          getD_set_of_ne msg (by omega) b', getD_set_of_ne msg (by omega) b']
      intro hEq; exact hne (by omega)
    · unfold beLen
      rw [getD_set_of_lt msg hilt b', getD_set_of_ne msg (by omega) b',
          getD_set_of_ne msg (by omega) b', getD_set_of_ne msg (by omega) b']
      intro hEq; exact hne (by omega)
    · unfold beLen
      rw [getD_set_of_lt msg hilt b', getD_set_of_ne msg (by omega) b',
          getD_set_of_ne msg (by omega) b', getD_set_of_ne msg (by omega) b']
      intro hEq; exact hne (by omega)
    · unfold beLen
      rw [getD_set_of_lt msg hilt b', getD_set_of_ne msg (by omega) b',
          getD_set_of_ne msg (by omega) b', getD_set_of_ne msg (by omega) b']
      intro hEq; exact hne (by omega)
  cases hres : checkPacket aS (msg.set i b')
  · rfl
  · exfalso
    obtain ⟨_, _, hsz', _⟩ := (checkPacket_eq_true_iff aS (msg.set i b')).1 hres
    rw [List.length_set] at hsz'
    omega

/-- **C6**.  Frame validation: `checkPacket` accepts exactly the buffers of
size at least 8 whose first 4 bytes are the synchronisation token, whose
bytes 4..8 decoded big-endian equal `size - 8`, and whose payload's
self-reported structural length equals that value; every buffer whose first
4 bytes differ from the token is rejected, and overwriting any byte of the
length field of a valid frame with a different byte makes validation fail. -/
theorem C6_validate (aS : List Nat → Nat) :
    (∀ msg, checkPacket aS msg = true ↔
        (8 ≤ msg.length ∧ hasToken msg = true ∧ msg.length = beLen msg + 8 ∧
         aS (msg.drop 8) = beLen msg)) ∧
    (∀ msg, hasToken msg = false → checkPacket aS msg = false) ∧
    (∀ msg i b', checkPacket aS msg = true → 4 ≤ i → i < 8 →
       (∀ x ∈ msg, x < 256) → b' < 256 → msg.getD i 0 ≠ b' →
       checkPacket aS (msg.set i b') = false) := by
  refine ⟨checkPacket_eq_true_iff aS, ?_, ?_⟩
  · intro msg htok
    cases hres : checkPacket aS msg
    · rfl
    · have := ((checkPacket_eq_true_iff aS msg).1 hres).2.1
      rw [htok] at this
      cases this
  · intro msg i b' hv h4i h8i hball hblt hneq
    exact checkPacket_set_len_field aS msg i b' hv h4i h8i hball hblt hneq

theorem C6_validate_witness :
    checkPacket (fun _ => 0) ([0x22, 0x40, 0x08, 0x91, 0, 0, 0, 0].set 4 1) = false :=
  (C6_validate (fun _ => 0)).2.2 [0x22, 0x40, 0x08, 0x91, 0, 0, 0, 0] 4 1
    (by decide) (by decide) (by decide) (by decide) (by decide) (by decide)

/-- **C10**.  Rating monotonicity: with a node record attached, `addRating`
never decreases the record's rating or score; without one it leaves the
state unchanged. -/
theorem C10_addRating_monotone :
    (∀ (n : Node) (r : Nat),
       n.rating ≤ ((addRating (some n) r).getD n).rating ∧
       n.score ≤ ((addRating (some n) r).getD n).score) ∧
    (∀ r : Nat, addRating none r = none) := by
  constructor
  · intro n r
    simp [addRating]
  · intro r
    rfl

/-- **C3**.  The inbound constructor leaves the node pointer null; a Hello
that passes the duplicate-peer check and the null-identity check then
evaluates `m_node->id` (the replaces-hint argument of `noteNode`) with
`m_node` still null — the handler falls outside its precondition, modelled
as the `none` result. -/
theorem C3_null_node_deref (env : HostEnv) (remoteAddr : List Nat)
    (force : Bool) (msg : HelloMsg)
    (hdup : env.havePeer msg.id = false)
    (hid : msg.id ≠ 0) :
    helloInterpret env remoteAddr none force msg = none := by
  simp [helloInterpret, helloRest, hdup, hid]

theorem C3_null_node_deref_witness :
    helloInterpret
      ⟨fun _ => false, 2, fun i ep o _ _ => ⟨i, ep, o, 0, 0, 0, 0⟩⟩
      [1, 2, 3, 4] none false ⟨2, 30303, 5⟩ = none :=
  C3_null_node_deref _ [1, 2, 3, 4] false ⟨2, 30303, 5⟩ (by decide) (by decide)

/-- **C4**.  Identity-change policy for a dialled session expecting identity
`X = n.id` that receives a Hello carrying `Y = msg.id ≠ X`: with the force
flag or a prior origin at most `SelfThird` the handler proceeds and hands
the new identity to `noteNode` (with the old one as replaces-hint), never
disconnecting with `UnexpectedIdentity`; otherwise it disconnects with
`UnexpectedIdentity` and returns failure. -/
theorem C4_identity_change (env : HostEnv) (remoteAddr : List Nat)
    (force : Bool) (msg : HelloMsg) (n : Node)
    (hdup : env.havePeer msg.id = false)
    (hne : n.id ≠ msg.id) :
    ((force = true ∨ n.idOrigin.le .SelfThird = true) → msg.id ≠ 0 →
      ∃ r, helloInterpret env remoteAddr (some n) force msg = some r ∧
        r.noteCall = some (msg.id, ⟨remoteAddr, msg.listenPort⟩, .Self, n.id) ∧
        r.disconnect ≠ some .UnexpectedIdentity)
    ∧ (force = false → n.idOrigin.le .SelfThird = false →
      helloInterpret env remoteAddr (some n) force msg =
        some ⟨some .UnexpectedIdentity, none,
              some { n with lastDisconnect := -1 }, none, false, false⟩) := by
  have hne' : ¬n.id = msg.id := hne
  constructor
  · intro hallow hid0
    have step : ∀ (hres : HelloResult),
        helloRest env remoteAddr (some { n with lastDisconnect := -1 }) msg =
          some hres →
        ∃ r, helloInterpret env remoteAddr (some n) force msg = some r ∧
          r.noteCall = hres.noteCall ∧ r.disconnect = hres.disconnect := by
      intro hres hrest
      refine ⟨hres, ?_, rfl, rfl⟩
      rw [← hrest]
      unfold helloInterpret
      rw [Option.map_some']
      rw [if_neg (by simp [hdup])]
      exact if_neg (fun hcontra => hcontra.2 hallow)
    by_cases hv : msg.protocolVersion = env.protocolVersion
    · obtain ⟨r, hr, hnote, hdis⟩ := step
        ⟨none, some (msg.id, ⟨remoteAddr, msg.listenPort⟩, .Self, n.id),
         some (env.noteNode msg.id ⟨remoteAddr, msg.listenPort⟩ .Self false n.id),
         some (env.noteNode msg.id ⟨remoteAddr, msg.listenPort⟩ .Self false n.id).index,
         true, true⟩
        (by simp [helloRest, hid0, hne', hv])
      exact ⟨r, hr, by rw [hnote], by rw [hdis]; simp⟩
    · obtain ⟨r, hr, hnote, hdis⟩ := step
        ⟨some .IncompatibleProtocol,
         some (msg.id, ⟨remoteAddr, msg.listenPort⟩, .Self, n.id),
         some (env.noteNode msg.id ⟨remoteAddr, msg.listenPort⟩ .Self false n.id),
         some (env.noteNode msg.id ⟨remoteAddr, msg.listenPort⟩ .Self false n.id).index,
         false, false⟩
        (by simp [helloRest, hid0, hne', hv])
      exact ⟨r, hr, by rw [hnote], by rw [hdis]; simp⟩
  · intro hforce horigin
    unfold helloInterpret
    rw [Option.map_some']
    rw [if_neg (by simp [hdup])]
    exact if_pos ⟨hne', by simp [hforce, horigin]⟩

theorem C4_identity_change_witness :
    helloInterpret
      ⟨fun _ => false, 2, fun i ep o _ _ => ⟨i, ep, o, 0, 0, 0, 0⟩⟩
      [5, 6, 7, 8] (some ⟨9, ⟨[5, 6, 7, 8], 30303⟩, .Perfect, 0, 0, 0, 3⟩)
      false ⟨2, 30303, 11⟩ =
    some ⟨some .UnexpectedIdentity, none,
          some ⟨9, ⟨[5, 6, 7, 8], 30303⟩, .Perfect, 0, 0, -1, 3⟩,
          none, false, false⟩ :=
  (C4_identity_change _ [5, 6, 7, 8] false ⟨2, 30303, 11⟩
    ⟨9, ⟨[5, 6, 7, 8], 30303⟩, .Perfect, 0, 0, 0, 3⟩
    (by decide) (by decide)).2 rfl (by decide)

/-- **C2** (amended).  Peers ingestion, filter 6: an advertised entry whose
identity already has a record in the host's node table is rejected (no
`noteNode`, no rating change), and the existing record's address is
rewritten to the advertised endpoint if and only if the existing record's
address is private — the publicness of the advertised address is not
checked (it is guaranteed only indirectly, by filter 2, when
local-networking policy is off). -/
theorem C2_known_identity (env : PeersEnv) (mnode : Option Node)
    (e : PeerEntry) (ex : Node)
    (hsize : e.addrBytes.length = 16 ∨ e.addrBytes.length = 4)
    (hpriv : ¬(env.isPriv e.addrBytes = true ∧ env.localNetworking = false))
    (hid : e.id ≠ 0)
    (hhost : env.hostId ≠ e.id)
    (hsess : e.id ≠ (match mnode with | some n => n.id | none => 0))
    (hat : nodesAt env.nodes e.id = some ex) :
    processEntry env mnode e =
      .skip (if env.isPriv ex.address.addrBytes = true
             then some (e.id, ⟨e.addrBytes, e.port⟩) else none) := by
  have hcount : nodesCount env.nodes e.id = true := by
    unfold nodesAt at hat
    unfold nodesCount
    rw [List.any_eq_true]
    have hp := List.find?_some hat
    exact ⟨ex, List.mem_of_find?_eq_some hat, hp⟩
  unfold processEntry
  rw [if_neg (by tauto), if_neg hpriv, if_neg hid, if_neg hhost, if_neg hsess,
      if_pos hcount, hat]

theorem C2_known_identity_witness :
    processEntry
      ⟨fun a => a.getD 0 0 == 10, true, 1,
       [⟨0xCC, ⟨[10, 0, 0, 1], 30303⟩, .Self, 0, 0, 0, 0⟩], [], 30303⟩
      (some ⟨0xBB, ⟨[1, 2, 3, 4], 30303⟩, .Perfect, 0, 0, 0, 1⟩)
      ⟨[1, 2, 3, 9], 30303, 0xCC⟩ =
      .skip (some (0xCC, ⟨[1, 2, 3, 9], 30303⟩)) :=
  C2_known_identity _ _ ⟨[1, 2, 3, 9], 30303, 0xCC⟩
    ⟨0xCC, ⟨[10, 0, 0, 1], 30303⟩, .Self, 0, 0, 0, 0⟩
    (by decide) (by decide) (by decide) (by decide) (by decide) (by decide)

/-- **C2** counterexample.  With local-networking policy on, a *private*
advertised address reaches filter 6, and the code still rewrites the
existing (private-addressed) record to it: the update is performed even
though the newly advertised address is not public, refuting the claimed
"if and only if the newly advertised address is public". -/
theorem C2_counterexample :
    processEntry
      ⟨fun a => a.getD 0 0 == 10, true, 1,
       [⟨0xCC, ⟨[10, 0, 0, 1], 30303⟩, .Self, 0, 0, 0, 0⟩], [], 30303⟩
      (some ⟨0xBB, ⟨[1, 2, 3, 4], 30303⟩, .Perfect, 0, 0, 0, 1⟩)
      ⟨[10, 0, 0, 2], 30303, 0xCC⟩ =
      .skip (some (0xCC, ⟨[10, 0, 0, 2], 30303⟩))
    ∧ (fun (a : List Nat) => a.getD 0 0 == 10) [10, 0, 0, 2] = true := by
  decide

/-- **C8**.  Peers ingestion, surviving entries: an advertised entry passing
all nine filters yields exactly one `noteNode` call whose origin tag is
`PerfectThird` when the informant's own origin is `Perfect` and `SelfThird`
otherwise, and `addRating(1000)` raises the informant's rating (and score)
by exactly 1000. -/
theorem C8_surviving_entry (env : PeersEnv) (inf : Node) (e : PeerEntry)
    (hsize : e.addrBytes.length = 16 ∨ e.addrBytes.length = 4)
    (hpriv : ¬(env.isPriv e.addrBytes = true ∧ env.localNetworking = false))
    (hid : e.id ≠ 0)
    (hhost : env.hostId ≠ e.id)
    (hsess : e.id ≠ inf.id)
    (hcount : nodesCount env.nodes e.id = false)
    (hport : e.port ≠ 0)
    (haddr : env.addresses.any
      (fun a => e.addrBytes == a && e.port == env.listenPort) = false)
    (hdupaddr : env.nodes.any
      (fun n => n.address == EndPoint.mk e.addrBytes e.port) = false) :
    processEntry env (some inf) e =
      .accept (if inf.idOrigin = .Perfect then .PerfectThird else .SelfThird) 1000
    ∧ addRating (some inf) 1000 =
        some { inf with rating := inf.rating + 1000, score := inf.score + 1000 } := by
  refine ⟨?_, rfl⟩
  unfold processEntry
  rw [if_neg (by tauto), if_neg hpriv, if_neg hid, if_neg hhost,
      if_neg (by simpa using hsess), if_neg (by simp [hcount]), if_neg hport,
      if_neg (by simp [haddr]), if_neg (by simp [hdupaddr])]

theorem C8_surviving_entry_witness :
    processEntry
      ⟨fun a => a.getD 0 0 == 10, false, 1, [], [], 30303⟩
      (some ⟨0xBB, ⟨[1, 2, 3, 4], 30303⟩, .Perfect, 7, 9, 0, 1⟩)
      ⟨[1, 2, 3, 9], 30303, 0xDD⟩ = .accept .PerfectThird 1000
    ∧ addRating (some ⟨0xBB, ⟨[1, 2, 3, 4], 30303⟩, .Perfect, 7, 9, 0, 1⟩) 1000 =
        some ⟨0xBB, ⟨[1, 2, 3, 4], 30303⟩, .Perfect, 1007, 1009, 0, 1⟩ :=
  C8_surviving_entry
    ⟨fun a => a.getD 0 0 == 10, false, 1, [], [], 30303⟩
    ⟨0xBB, ⟨[1, 2, 3, 4], 30303⟩, .Perfect, 7, 9, 0, 1⟩
    ⟨[1, 2, 3, 9], 30303, 0xDD⟩
    (by decide) (by decide) (by decide) (by decide) (by decide) (by decide)
    (by decide) (by decide) (by decide)

theorem writeImpl_closed (s : EgressState) (b : List Nat)
    (h : s.isOpen = false) : writeImpl s b = s := by
  simp [writeImpl, h]

theorem writeImpl_empty (s : EgressState) (b : List Nat)
    (ho : s.isOpen = true) (hq : s.queue = []) :
    writeImpl s b = ⟨[b], some b, true⟩ := by
  simp [writeImpl, ho, hq]

theorem writeImpl_nonempty (s : EgressState) (b : List Nat)
    (ho : s.isOpen = true) (hq : s.queue ≠ []) :
    writeImpl s b = { s with queue := s.queue ++ [b] } := by
  simp [writeImpl, ho, hq]

theorem writeOk_cons (s : EgressState) (x : List Nat) (xs : List (List Nat))
    (hq : s.queue = x :: xs) :
    writeOk s = { s with queue := xs, inFlight := xs.head? } := by
  unfold writeOk
  rw [hq]

/-- Every reachable state of the write machinery satisfies the egress
invariant. -/
theorem egressReachable_inv (s : EgressState) (h : EgressReachable s) :
    EgressInv s := by
  induction h with
  | init =>
    exact ⟨fun _ => rfl, fun _ => ⟨fun b hb => Option.noConfusion hb, (by simp)⟩⟩
  | @enq t b ht ih =>
    by_cases ho : t.isOpen = true
    · by_cases hq : t.queue = []
      · rw [writeImpl_empty t b ho hq]
        exact ⟨fun h => Bool.noConfusion h,
               fun _ => ⟨fun b' hb' => (by cases hb'; rfl), (by simp)⟩⟩
      · rw [writeImpl_nonempty t b ho hq]
        obtain ⟨hhd, hiff⟩ := ih.2 ho
        refine ⟨fun h => Bool.noConfusion (ho.symm.trans h),
                fun _ => ⟨?_, ?_⟩⟩
        · intro b' hb'
          have hb2 := hhd b' hb'
          show (t.queue ++ [b]).head? = some b'
          cases hqq : t.queue with
          | nil => exact absurd hqq hq
          | cons x xs =>
            rw [hqq] at hb2
            simpa using hb2
        · constructor
          · intro hn
            exact absurd (hiff.1 hn) hq
          · intro happ
            exact absurd happ (by simp)
    · rw [writeImpl_closed t b (by simpa using ho)]
      exact ih
  | @ok t b ht hif ih =>
    have ho : t.isOpen = true := by
      cases hoo : t.isOpen
      · exact absurd hif (by rw [ih.1 hoo]; simp)
      · rfl
    have hhd := (ih.2 ho).1 b hif
    cases hq : t.queue with
    | nil =>
      rw [hq] at hhd
      exact Option.noConfusion hhd
    | cons x xs =>
      rw [writeOk_cons t x xs hq]
      refine ⟨fun h => Bool.noConfusion (ho.symm.trans h),
              fun _ => ⟨fun b' hb' => hb', ?_⟩⟩
      exact List.head?_eq_none_iff
  | @err t b ht hif ih =>
    exact ⟨fun _ => rfl, fun h => Bool.noConfusion h⟩

/-- **C5**.  Egress queue invariant: in every reachable state of the write
machinery the in-flight buffer is the head of the queue; a successful write
completion pops the head and makes the new head (if any) the next in-flight
buffer; a failed completion closes the socket without popping; and an
enqueue on an open socket starts a write exactly when the queue transitions
from empty to non-empty. -/
theorem C5_egress (s : EgressState) (hs : EgressReachable s) :
    (∀ b, s.inFlight = some b → s.queue.head? = some b)
    ∧ (∀ b, s.inFlight = some b →
        (writeOk s).queue = s.queue.tail ∧
        (writeOk s).inFlight = s.queue.tail.head?)
    ∧ ((writeErr s).queue = s.queue ∧ (writeErr s).isOpen = false ∧
       (writeErr s).inFlight = none)
    ∧ (∀ b, s.isOpen = true →
        ((s.queue = [] →
           (writeImpl s b).inFlight = some b ∧ s.inFlight = none)
         ∧ (s.queue ≠ [] →
           (writeImpl s b).inFlight = s.inFlight ∧
           (writeImpl s b).queue = s.queue ++ [b]))) := by
  have inv := egressReachable_inv s hs
  refine ⟨?_, ?_, ⟨rfl, rfl, rfl⟩, ?_⟩
  · intro b hb
    have ho : s.isOpen = true := by
      cases hoo : s.isOpen
      · exact absurd hb (by rw [inv.1 hoo]; simp)
      · rfl
    exact (inv.2 ho).1 b hb
  · intro b hb
    have ho : s.isOpen = true := by
      cases hoo : s.isOpen
      · exact absurd hb (by rw [inv.1 hoo]; simp)
      · rfl
    have hhd := (inv.2 ho).1 b hb
    cases hq : s.queue with
    | nil => rw [hq] at hhd; cases hhd
    | cons x xs =>
      rw [writeOk_cons s x xs hq]
      exact ⟨rfl, rfl⟩
  · intro b ho
    constructor
    · intro hq
      have hn : s.inFlight = none := ((inv.2 ho).2).2 hq
      rw [writeImpl_empty s b ho hq]
      exact ⟨rfl, hn⟩
    · intro hq
      rw [writeImpl_nonempty s b ho hq]
      exact ⟨rfl, rfl⟩

theorem C5_egress_witness :
    (writeOk ⟨[[7]], some [7], true⟩).queue = ([[7]] : List (List Nat)).tail ∧
    (writeOk ⟨[[7]], some [7], true⟩).inFlight = ([[7]] : List (List Nat)).tail.head? := by
  have h := (C5_egress (writeImpl ⟨[], none, true⟩ [7])
    (EgressReachable.enq [7] EgressReachable.init)).2.1 [7] (by rfl)
  exact h

/-- The erase loop of `randomSelection` leaves exactly `min |ret| n`
elements once given at least `|ret|` fuel. -/
theorem selGo_length {α : Type} (rnd : Nat → Nat) (n : Nat) :
    ∀ (fuel k : Nat) (ret : List α), ret.length ≤ n + fuel →
      (selGo rnd n fuel k ret).length = min ret.length n := by
  intro fuel
  induction fuel with
  | zero =>
    intro k ret h
    simp only [selGo]
    omega
  | succ fuel ih =>
    intro k ret h
    simp only [selGo]
    by_cases hr : ret.length ≤ n
    · rw [if_pos hr]
      omega
    · rw [if_neg hr]
      have hlt : rnd k % ret.length < ret.length := Nat.mod_lt _ (by omega)
      have hlen : (ret.eraseIdx (rnd k % ret.length)).length = ret.length - 1 := by
        rw [List.length_eraseIdx]
        simp [hlt]
      rw [ih (k + 1) (ret.eraseIdx (rnd k % ret.length)) (by omega)]
      omega

/-- The erase loop of `randomSelection` returns a sublist of its input. -/
theorem selGo_sublist {α : Type} (rnd : Nat → Nat) (n : Nat) :
    ∀ (fuel k : Nat) (ret : List α), (selGo rnd n fuel k ret).Sublist ret := by
  intro fuel
  induction fuel with
  | zero =>
    intro k ret
    exact List.Sublist.refl ret
  | succ fuel ih =>
    intro k ret
    simp only [selGo]
    by_cases hr : ret.length ≤ n
    · rw [if_pos hr]
    · rw [if_neg hr]
      exact (ih (k + 1) _).trans (List.eraseIdx_sublist ret _)

theorem randomSelection_length {α : Type} (rnd : Nat → Nat) (t : List α) (n : Nat) :
    (randomSelection rnd t n).length = min t.length n := by
  unfold randomSelection
  by_cases h : t.length ≤ n
  · rw [if_pos h]
    omega
  · rw [if_neg h]
    exact selGo_length rnd n t.length 0 t (by omega)

theorem randomSelection_sublist {α : Type} (rnd : Nat → Nat) (t : List α) (n : Nat) :
    (randomSelection rnd t n).Sublist t := by
  unfold randomSelection
  by_cases h : t.length ≤ n
  · rw [if_pos h]
  · rw [if_neg h]
    exact selGo_sublist rnd n t.length 0 t

theorem randomSelection_all {α : Type} (rnd : Nat → Nat) (t : List α) (n : Nat)
    (h : t.length ≤ n) : randomSelection rnd t n = t := by
  unfold randomSelection
  rw [if_pos h]

/-- Folding the known-nodes insertions preserves prior members and contains
the index of every listed peer. -/
theorem foldl_insert_mem (l : List PeerCand) :
    ∀ (k : Finset Nat),
      (∀ x ∈ k, x ∈ l.foldl (fun a c => insert c.index a) k) ∧
      (∀ c ∈ l, c.index ∈ l.foldl (fun a c => insert c.index a) k) := by
  induction l with
  | nil =>
    intro k
    exact ⟨fun x hx => hx, fun c hc => absurd hc (List.not_mem_nil c)⟩
  | cons c cs ih =>
    intro k
    constructor
    · intro x hx
      exact (ih (insert c.index k)).1 x (Finset.mem_insert_of_mem hx)
    · intro d hd
      rcases List.mem_cons.mp hd with hdc | hdcs
      · subst hdc
        exact (ih (insert d.index k)).1 d.index (Finset.mem_insert_self d.index k)
      · exact (ih (insert c.index k)).2 d hdcs

/-- **C7**.  GetPeers handling: an empty candidate set elicits no reply;
otherwise the reply encodes a selection of the candidates of size
`min |peers| 10` (the whole candidate list when it has at most 10 entries),
and the index of every selected peer is in the known-nodes bitset
afterwards. -/
theorem C7_getPeers (rnd : Nat → Nat) (peers : List PeerCand) (known : Finset Nat) :
    (peers = [] → getPeersHandle rnd peers known = (none, known))
    ∧ (peers ≠ [] →
       ∃ rs : List PeerCand, rs.Sublist peers ∧
         (getPeersHandle rnd peers known).1 = some (rs.map encodePeer) ∧
         rs.length = min peers.length 10 ∧
         (peers.length ≤ 10 → rs = peers) ∧
         (∀ c ∈ rs, c.index ∈ (getPeersHandle rnd peers known).2)) := by
  constructor
  · intro h
    simp [getPeersHandle, h]
  · intro h
    have heq : getPeersHandle rnd peers known =
        (some ((randomSelection rnd peers 10).map encodePeer),
         (randomSelection rnd peers 10).foldl (fun k c => insert c.index k) known) := by
      unfold getPeersHandle
      rw [if_neg h]
    refine ⟨randomSelection rnd peers 10, randomSelection_sublist rnd peers 10,
            ?_, randomSelection_length rnd peers 10, randomSelection_all rnd peers 10, ?_⟩
    · rw [heq]
    · intro c hc
      rw [heq]
      exact (foldl_insert_mem (randomSelection rnd peers 10) known).2 c hc

theorem C7_getPeers_witness :
    getPeersHandle (fun _ => 0) [] ({3} : Finset Nat) = (none, {3}) :=
  (C7_getPeers (fun _ => 0) [] {3}).1 rfl

/-- **C9**.  Disconnect sequencing: with the socket open, the first call to
`disconnect` sends exactly one Disconnect packet carrying the reason and
stamps the disconnect time (previously the "never" sentinel); any further
call while the stamp is set sends nothing and closes the socket; in both
cases an attached node record has its `lastDisconnect` set to the reason. -/
theorem C9_disconnect (s : DisState) (reason : Int) (now : Nat)
    (hopen : s.socketOpen = true) :
    (s.disconnectAt = none →
       disconnectCall s reason now =
         ({ s with node := s.node.map (fun n => { n with lastDisconnect := reason }),
                   disconnectAt := some now },
          some (.DisconnectPacket, [reason])))
    ∧ (∀ t, s.disconnectAt = some t →
       disconnectCall s reason now =
         ({ s with node := s.node.map (fun n => { n with lastDisconnect := reason }),
                   socketOpen := false }, none))
    ∧ (∀ n, s.node = some n →
       (disconnectCall s reason now).1.node = some { n with lastDisconnect := reason }) := by
  refine ⟨?_, ?_, ?_⟩
  · intro hnone
    simp [disconnectCall, hopen, hnone]
  · intro t ht
    simp [disconnectCall, hopen, ht]
  · intro n hn
    cases hda : s.disconnectAt with
    | none => simp [disconnectCall, hopen, hda, hn]
    | some t => simp [disconnectCall, hopen, hda, hn]

theorem C9_disconnect_witness :
    disconnectCall ⟨true, none, some ⟨1, ⟨[1, 2, 3, 4], 30303⟩, .Self, 0, 0, 0, 0⟩⟩ 3 7 =
      (⟨true, some 7, some ⟨1, ⟨[1, 2, 3, 4], 30303⟩, .Self, 0, 0, 3, 0⟩⟩,
       some (.DisconnectPacket, [3])) := by
  have h := (C9_disconnect
    ⟨true, none, some ⟨1, ⟨[1, 2, 3, 4], 30303⟩, .Self, 0, 0, 0, 0⟩⟩ 3 7 rfl).1 rfl
  exact h.trans (by decide)

end P2PSession
